import Mathlib

/-!
Shallow embedding of the node-graph model of `ffmpeg/nodes.py` and of the
filter wrapper functions of `ffmpeg/_filters.py`, together with theorems
settling the specification claims about them.

Modelling conventions:
* Python parameter values occurring in this code base are integers and
  strings; they are embedded as `PyVal`.
* `hashlib.md5` is modelled as an injective digest: each call of the digest
  becomes one application of the constructor `HashVal.digest`, recording
  exactly the data the code feeds to `md5` — the serialized props string, and
  the hashes of the parents that `_update_hash` mixes in.  (In the code the
  parent hashes are rendered as decimal integers and joined with commas
  before the outer md5; since md5 renderings contain no comma, that joined
  string determines the list, so keeping the list is faithful up to md5
  collisions, which are outside the model.)
* A failing `assert` is modelled by `Except.error` carrying the assertion
  message; a successful construction returns `Except.ok` with the node.
* Python `dict`s (the `kwargs`) are embedded as association lists in
  insertion order; keys are unique in every dict Python can build, and the
  serialization sorts by key exactly as `json.dumps(..., sort_keys=True)`
  and `sorted(self._kwargs)` do.
-/

namespace FfmpegSpec

/-- A Python parameter value as used by this code base: `int` or `str`. -/
inductive PyVal where
  | int (i : Int)
  | str (s : String)
deriving DecidableEq

/-- The four concrete node classes of `nodes.py`: `InputNode`, `FilterNode`,
`OutputNode`, `GlobalNode`. -/
inductive NodeKind where
  | input
  | filter
  | output
  | globalOpt
deriving DecidableEq

/-- A constructed node: the fields set by `Node.__init__` (`self._parents`,
`self._name`, `self._args`, `self._kwargs`) plus the Python class of the
object as the kind tag. -/
inductive Node where
  | mk (kind : NodeKind) (parents : List Node) (name : String)
       (args : List PyVal) (kwargs : List (String × PyVal))

def Node.kind : Node → NodeKind
  | .mk k _ _ _ _ => k

def Node.parents : Node → List Node
  | .mk _ ps _ _ _ => ps

def Node.name : Node → String
  | .mk _ _ nm _ _ => nm

def Node.args : Node → List PyVal
  | .mk _ _ _ as _ => as

def Node.kwargs : Node → List (String × PyVal)
  | .mk _ _ _ _ kw => kw

/-- The single-quote character, used by Python string `repr`. -/
def squote : Char := Char.ofNat 39

/-- Lower-case hexadecimal digit. -/
def hexDigit (n : Nat) : Char :=
  if n < 10 then Char.ofNat (48 + n) else Char.ofNat (87 + n)

/-- Two lower-case hex digits. -/
def hex2 (n : Nat) : String :=
  String.mk [hexDigit (n / 16 % 16), hexDigit (n % 16)]

/-- Four lower-case hex digits. -/
def hex4 (n : Nat) : String :=
  String.mk [hexDigit (n / 4096 % 16), hexDigit (n / 256 % 16),
             hexDigit (n / 16 % 16), hexDigit (n % 16)]

/-- One character of `json.dumps` output (default `ensure_ascii=True`):
printable ASCII other than quote and backslash is literal, the usual
short escapes apply, everything else becomes `\uXXXX` (with a surrogate
pair beyond the BMP). -/
def jsonEscapeChar (c : Char) : String :=
  if c = '"' then "\\\""
  else if c = '\\' then "\\\\"
  else if c = '\n' then "\\n"
  else if c = '\r' then "\\r"
  else if c = '\t' then "\\t"
  else if c.toNat = 8 then "\\b"
  else if c.toNat = 12 then "\\f"
  else if 32 ≤ c.toNat ∧ c.toNat ≤ 126 then String.mk [c]
  else if c.toNat < 65536 then "\\u" ++ hex4 c.toNat
  else
    "\\u" ++ hex4 (55296 + (c.toNat - 65536) / 1024) ++
    "\\u" ++ hex4 (56320 + (c.toNat - 65536) % 1024)

/-- `json.dumps` of a Python string. -/
def jsonStr (s : String) : String :=
  "\"" ++ String.join (s.toList.map jsonEscapeChar) ++ "\""

/-- `json.dumps` of a single parameter value. -/
def pyValJson : PyVal → String
  | .int i => toString i
  | .str s => jsonStr s

/-- Lexicographic comparison of character sequences by code point — the
order Python uses to compare strings. -/
def charListLe : List Char → List Char → Bool
  | [], _ => true
  | _ :: _, [] => false
  | c :: cs, d :: ds =>
    if c.toNat < d.toNat then true
    else if c.toNat = d.toNat then charListLe cs ds
    else false

/-- Python string `<=`. -/
def strLe (s t : String) : Bool := charListLe s.toList t.toList

theorem charListLe_total : ∀ a b : List Char,
    charListLe a b = true ∨ charListLe b a = true
  | [], _ => .inl rfl
  | _ :: _, [] => .inr rfl
  | c :: cs, d :: ds => by
    rcases Nat.lt_trichotomy c.toNat d.toNat with h | h | h
    · left; simp [charListLe, h]
    · rcases charListLe_total cs ds with ih | ih
      · left; simp [charListLe, h, ih]
      · right; simp [charListLe, h.symm, ih]
    · right; simp [charListLe, h]

theorem charListLe_trans : ∀ a b c : List Char,
    charListLe a b = true → charListLe b c = true → charListLe a c = true
  | [], _, _, _, _ => rfl
  | _ :: _, [], _, hab, _ => by simp [charListLe] at hab
  | _ :: _, _ :: _, [], _, hbc => by simp [charListLe] at hbc
  | a :: as, b :: bs, c :: cs, hab, hbc => by
    simp only [charListLe] at hab hbc ⊢
    split_ifs at hab hbc ⊢ <;>
      first
        | rfl
        | omega
        | exact charListLe_trans as bs cs hab hbc

theorem charListLe_antisymm : ∀ a b : List Char,
    charListLe a b = true → charListLe b a = true → a = b
  | [], [], _, _ => rfl
  | [], _ :: _, _, hba => by simp [charListLe] at hba
  | _ :: _, [], hab, _ => by simp [charListLe] at hab
  | a :: as, b :: bs, hab, hba => by
    simp only [charListLe] at hab hba
    split_ifs at hab hba <;>
      first
        | omega
        | exact absurd hab (by decide)
        | exact absurd hba (by decide)
        | (rename_i h₁ h₂
           have hc : a = b := by
             rw [← Char.ofNat_toNat a, ← Char.ofNat_toNat b, h₂]
           cases hc
           rw [charListLe_antisymm as bs hab hba])

/-- Order on kwarg entries used by `sorted(self._kwargs)` and
`json.dumps(..., sort_keys=True)`: Python string comparison of the keys. -/
def keyLe (p q : String × PyVal) : Prop := strLe p.1 q.1 = true

instance : DecidableRel keyLe :=
  fun p q => inferInstanceAs (Decidable (strLe p.1 q.1 = true))

instance : IsTotal (String × PyVal) keyLe :=
  ⟨fun p q => charListLe_total p.1.toList q.1.toList⟩

instance : IsTrans (String × PyVal) keyLe :=
  ⟨fun p q r h₁ h₂ => charListLe_trans p.1.toList q.1.toList r.1.toList h₁ h₂⟩

/-- The kwargs in ascending key order, as `sorted` produces (stable; on the
dicts Python can actually build the keys are unique, so the order is fully
determined by the keys). -/
def sortKwargs (kws : List (String × PyVal)) : List (String × PyVal) :=
  List.insertionSort keyLe kws

/-- `json.dumps` of the `args` tuple. -/
def argsJson (args : List PyVal) : String :=
  "[" ++ String.intercalate ", " (args.map pyValJson) ++ "]"

/-- `json.dumps` of the `kwargs` dict under `sort_keys=True`. -/
def kwargsJson (kws : List (String × PyVal)) : String :=
  "\x7b" ++
    String.intercalate ", "
      ((sortKwargs kws).map (fun p => jsonStr p.1 ++ ": " ++ pyValJson p.2)) ++
  "\x7d"

/-- `json.dumps({'args': self._args, 'kwargs': self._kwargs}, sort_keys=True)`
from `Node._update_hash`: the two top-level keys appear in sorted order
`"args" < "kwargs"`. -/
def propsStr (args : List PyVal) (kwargs : List (String × PyVal)) : String :=
  "\x7b\"args\": " ++ argsJson args ++ ", \"kwargs\": " ++ kwargsJson kwargs ++ "\x7d"

/-- The structural identity value of a node: one `digest` application per
`md5` call in `_update_hash`, keeping the parent hashes (in parent order)
and the serialized props. -/
inductive HashVal where
  | digest (parentHashes : List HashVal) (props : String)

mutual

/-- Boolean equality of hash values (hand-rolled, since deriving does not
handle the nested inductive). -/
def HashVal.beq : HashVal → HashVal → Bool
  | .digest ps s, .digest qs t => s == t && HashVal.beqList ps qs
  termination_by structural a _ => a

def HashVal.beqList : List HashVal → List HashVal → Bool
  | [], [] => true
  | _ :: _, [] => false
  | [], _ :: _ => false
  | p :: ps, q :: qs => HashVal.beq p q && HashVal.beqList ps qs
  termination_by structural a _ => a

end

mutual

theorem HashVal.beq_iff : ∀ a b : HashVal, HashVal.beq a b = true ↔ a = b
  | .digest ps s, .digest qs t => by
    simp only [HashVal.beq, Bool.and_eq_true, beq_iff_eq, HashVal.digest.injEq,
      HashVal.beqList_iff ps qs]
    exact and_comm

theorem HashVal.beqList_iff : ∀ ps qs : List HashVal,
    HashVal.beqList ps qs = true ↔ ps = qs
  | [], [] => by simp [HashVal.beqList]
  | _ :: _, [] => by simp [HashVal.beqList]
  | [], _ :: _ => by simp [HashVal.beqList]
  | p :: ps, q :: qs => by
    simp only [HashVal.beqList, Bool.and_eq_true, List.cons.injEq,
      HashVal.beq_iff p q, HashVal.beqList_iff ps qs]

end

instance : BEq HashVal := ⟨HashVal.beq⟩

instance : LawfulBEq HashVal :=
  ⟨fun h => (HashVal.beq_iff _ _).mp h, fun {a} => (HashVal.beq_iff a a).mpr rfl⟩

instance : DecidableEq HashVal :=
  fun a b => decidable_of_iff _ (HashVal.beq_iff a b)

mutual

/-- `Node.__hash__` / `Node._update_hash`: hash the serialized
`args`/`kwargs` props, then digest the parents' hashes (in order) together
with it.  Note: neither the node's name nor its class enters the hash. -/
def nodeHash : Node → HashVal
  | .mk _ parents _ args kwargs => .digest (nodeHashList parents) (propsStr args kwargs)
  termination_by structural n => n

def nodeHashList : List Node → List HashVal
  | [] => []
  | n :: ns => nodeHash n :: nodeHashList ns
  termination_by structural ns => ns

end

/-- `Node.__eq__`: equality of the structural hashes. -/
def nodeEq (a b : Node) : Bool := nodeHash a == nodeHash b

/-- `Node.__init__`: records parents, name, args and kwargs after asserting
that no two parents have the same hash
(`len(parent_hashes) == len(set(parent_hashes))`). -/
def mkNode (kind : NodeKind) (parents : List Node) (name : String)
    (args : List PyVal) (kwargs : List (String × PyVal)) : Except String Node :=
  if (parents.map nodeHash).Nodup then
    .ok (.mk kind parents name args kwargs)
  else
    .error "Same node cannot be included as parent multiple times"

/-- `InputNode.__init__`: a `Node` with no parents. -/
def mkInputNode (name : String) (args : List PyVal)
    (kwargs : List (String × PyVal)) : Except String Node :=
  mkNode .input [] name args kwargs

/-- `FilterNode` construction: the class adds no `__init__` of its own, so
this is `Node.__init__` with the `FilterNode` class tag. -/
def mkFilterNode (parents : List Node) (name : String) (args : List PyVal)
    (kwargs : List (String × PyVal)) : Except String Node :=
  mkNode .filter parents name args kwargs

/-- `OutputNode` construction: likewise just `Node.__init__`. -/
def mkOutputNode (parents : List Node) (name : String) (args : List PyVal)
    (kwargs : List (String × PyVal)) : Except String Node :=
  mkNode .output parents name args kwargs

/-- `GlobalNode.__init__`: asserts `isinstance(parent, OutputNode)` and then
calls `Node.__init__` with the single parent. -/
def mkGlobalNode (parent : Node) (name : String) (args : List PyVal)
    (kwargs : List (String × PyVal)) : Except String Node :=
  if parent.kind = NodeKind.output then
    mkNode .globalOpt [parent] name args kwargs
  else
    .error "Global nodes can only be attached after output nodes"

/-- Python `'{}'.format(v)` / `str(v)` for a parameter value. -/
def pyStr : PyVal → String
  | .int i => toString i
  | .str s => s

/-- One character of Python string `repr` output, given the chosen quote
character.  (Printable characters — including non-ASCII, which Python keeps
literal — are emitted as-is; the model covers the escapes relevant to this
code base: backslash, the quote, newline, carriage return, tab, and other
C0 controls / DEL as `\xXX`.) -/
def pyReprEscapeChar (q : Char) (c : Char) : String :=
  if c = '\\' then "\\\\"
  else if c = q then "\\" ++ String.mk [q]
  else if c = '\n' then "\\n"
  else if c = '\r' then "\\r"
  else if c = '\t' then "\\t"
  else if c.toNat < 32 ∨ c.toNat = 127 then "\\x" ++ hex2 c.toNat
  else String.mk [c]

/-- Python `repr` of a string: single-quoted, except that a string containing
a single quote and no double quote is double-quoted. -/
def pyReprStr (s : String) : String :=
  let q : Char := if s.toList.contains squote && !(s.toList.contains '"') then '"' else squote
  String.mk [q] ++ String.join (s.toList.map (pyReprEscapeChar q)) ++ String.mk [q]

/-- Python `'{!r}'.format(v)` / `repr(v)` for a parameter value. -/
def pyRepr : PyVal → String
  | .int i => toString i
  | .str s => pyReprStr s

/-- `Node.__repr__`: `name(arg,...,key=repr(value),...)`, args first in
declared order, kwargs in sorted key order with `repr`ed values. -/
def Node.repr (n : Node) : String :=
  let formattedProps :=
    n.args.map pyStr ++ (sortKwargs n.kwargs).map (fun p => p.1 ++ "=" ++ pyRepr p.2)
  n.name ++ "(" ++ String.intercalate "," formattedProps ++ ")"

/-- `FilterNode._get_filter`: the per-segment textual fragment — the filter
name, and if there are any parameters, `=` followed by the `:`-joined
parameters (args first, then kwargs as `key=value` in sorted key order,
values via `str`). -/
def get_filter (n : Node) : String :=
  let paramsText := n.name
  let argParams := n.args.map pyStr
  let kwargParams := (sortKwargs n.kwargs).map (fun p => p.1 ++ "=" ++ pyStr p.2)
  let params := argParams ++ kwargParams
  if params.isEmpty then paramsText
  else paramsText ++ "=" ++ String.intercalate ":" params

/-- Python `d[k] = v` on an association-list dict: replace the value at an
existing key in place, otherwise append the new entry. -/
def setKey (kws : List (String × PyVal)) (k : String) (v : PyVal) :
    List (String × PyVal) :=
  if kws.any (fun p => p.1 = k) then
    kws.map (fun p => if p.1 = k then (k, v) else p)
  else
    kws ++ [(k, v)]

/-- Dict lookup: the value at the first entry with the given key. -/
def lookupKey (kws : List (String × PyVal)) (k : String) : Option PyVal :=
  (kws.find? (fun p => p.1 = k)).map Prod.snd

/-- `_filters.filter_`: `FilterNode([parent_node], filter_name, *args, **kwargs)`. -/
def filter_ (parent : Node) (filterName : String) (args : List PyVal)
    (kwargs : List (String × PyVal)) : Except String Node :=
  mkFilterNode [parent] filterName args kwargs

/-- `_filters.filter_multi`: `FilterNode(parent_nodes, filter_name, *args, **kwargs)`. -/
def filter_multi (parents : List Node) (filterName : String) (args : List PyVal)
    (kwargs : List (String × PyVal)) : Except String Node :=
  mkFilterNode parents filterName args kwargs

/-- `_filters.concat`: sets `kwargs['n'] = len(parent_nodes)` and calls
`filter_multi(parent_nodes, 'concat', **kwargs)`. -/
def concat (parentNodes : List Node) (kwargs : List (String × PyVal)) :
    Except String Node :=
  filter_multi parentNodes "concat" []
    (setKey kwargs "n" (.int parentNodes.length))

/-- `nodeHashList` is pointwise `nodeHash`. -/
theorem nodeHashList_eq_map : ∀ ps : List Node, nodeHashList ps = ps.map nodeHash
  | [] => rfl
  | n :: ns => by rw [nodeHashList, nodeHashList_eq_map ns, List.map_cons]

/-- Unfolding of the structural hash on a constructed node. -/
theorem nodeHash_mk (k : NodeKind) (ps : List Node) (nm : String)
    (as : List PyVal) (kw : List (String × PyVal)) :
    nodeHash (.mk k ps nm as kw) = .digest (ps.map nodeHash) (propsStr as kw) := by
  rw [nodeHash, nodeHashList_eq_map]

/-- `nodeEq` is propositional equality of the hashes. -/
theorem nodeEq_iff (a b : Node) : nodeEq a b = true ↔ nodeHash a = nodeHash b := by
  simp [nodeEq]

/-- Modelled from the spec: `escape_chars` from `ffmpeg/_utils.py`, which is
imported by `_filters.py` but absent from the sources; per §4.4 of the spec,
string values containing the chain's own syntax characters must be escaped,
here by prefixing each listed character with a backslash. -/
def escape_chars (text : String) (chars : List Char) : String :=
  String.join (text.toList.map
    (fun c => if c ∈ chars then "\\" ++ String.mk [c] else String.mk [c]))

/-- `_filters.drawtext`: optionally escapes the text and sets the `text`,
`x`, `y` kwargs, then calls `filter_(parent_node, drawbox.__name__,
**kwargs)` — note `drawbox.__name__`, i.e. the string `'drawbox'`. -/
def drawtext (parent : Node) (text : Option String) (x y : PyVal)
    (escapeText : Bool) (kwargs : List (String × PyVal)) : Except String Node :=
  let kw₁ := match text with
    | some t =>
        setKey kwargs "text"
          (.str (if escapeText then escape_chars t ['\\', squote, '%'] else t))
    | none => kwargs
  let kw₂ := if x ≠ PyVal.int 0 then setKey kw₁ "x" x else kw₁
  let kw₃ := if y ≠ PyVal.int 0 then setKey kw₂ "y" y else kw₂
  filter_ parent "drawbox" [] kw₃

/-- Example source node, as built by `file_input('dummy.mp4')`. -/
def srcNode : Node := .mk .input [] "file_input" [] [("filename", .str "dummy.mp4")]

/-- `hflip` filter applied to `srcNode`. -/
def hflipNode : Node := .mk .filter [srcNode] "hflip" [] []

/-- `vflip` filter applied to `srcNode`. -/
def vflipNode : Node := .mk .filter [srcNode] "vflip" [] []

/-- First trim of the source, as in the repository tests. -/
def trimNode1 : Node :=
  .mk .filter [srcNode] "trim" [] [("start_frame", .int 10), ("end_frame", .int 20)]

/-- Second trim of the source, with different parameters. -/
def trimNode2 : Node :=
  .mk .filter [srcNode] "trim" [] [("start_frame", .int 30), ("end_frame", .int 40)]

/-- Third trim of the source, with different parameters again. -/
def trimNode3 : Node :=
  .mk .filter [srcNode] "trim" [] [("start_frame", .int 50), ("end_frame", .int 60)]

/-- An output node fed by `trimNode1`. -/
def outNode : Node :=
  .mk .output [trimNode1] "file_output" [] [("filename", .str "dummy2.mp4")]

/-- A longhand copy of the small pipeline `outNode`, written out from scratch
as an independent construction of the same chain. -/
def pipelineSinkB : Node :=
  .mk .output
    [.mk .filter [.mk .input [] "file_input" [] [("filename", .str "dummy.mp4")]]
      "trim" [] [("start_frame", .int 10), ("end_frame", .int 20)]]
    "file_output" [] [("filename", .str "dummy2.mp4")]

/-- Two nodes were "built the same way" when they were constructed with the
same kind, name, positional and named parameters, and parents that were
themselves, position by position, built the same way — the hypothesis of the
pipeline-rebuilding claim.  (Object distinctness has no analogue in the
value model; this relation is exactly "same construction calls".) -/
inductive SameBuild : Node → Node → Prop where
  | mk (kind : NodeKind) (ps₁ ps₂ : List Node) (name : String) (args : List PyVal)
      (kwargs : List (String × PyVal)) (hlen : ps₁.length = ps₂.length)
      (hps : ∀ i (h₁ : i < ps₁.length) (h₂ : i < ps₂.length),
        SameBuild (ps₁.get ⟨i, h₁⟩) (ps₂.get ⟨i, h₂⟩)) :
      SameBuild (.mk kind ps₁ name args kwargs) (.mk kind ps₂ name args kwargs)

theorem string_toList_inj {s t : String} (h : s.toList = t.toList) : s = t := by
  cases s; cases t; exact congrArg String.mk h

theorem strLe_antisymm {s t : String} (h₁ : strLe s t = true) (h₂ : strLe t s = true) :
    s = t :=
  string_toList_inj (charListLe_antisymm _ _ h₁ h₂)

theorem sortKwargs_perm (kws : List (String × PyVal)) : List.Perm (sortKwargs kws) kws :=
  List.perm_insertionSort keyLe kws

theorem sortKwargs_sorted (kws : List (String × PyVal)) : (sortKwargs kws).Sorted keyLe :=
  List.sorted_insertionSort keyLe kws

/-- The keys of the sorted kwargs are in ascending Python string order. -/
theorem sortKwargs_sorted_keys (kws : List (String × PyVal)) :
    ((sortKwargs kws).map Prod.fst).Sorted (fun a b => strLe a b = true) := by
  rw [List.Sorted, List.pairwise_map]
  exact sortKwargs_sorted kws

/-- Two key-sorted association lists that are permutations of each other and
have duplicate-free keys are equal. -/
theorem sorted_keys_nodup_perm_eq : ∀ l₁ l₂ : List (String × PyVal),
    List.Perm l₁ l₂ → l₁.Sorted keyLe → l₂.Sorted keyLe →
    (l₁.map Prod.fst).Nodup → l₁ = l₂
  | [], _, hp, _, _, _ => hp.nil_eq
  | _ :: _, [], hp, _, _, _ => by simpa using hp.eq_nil
  | a :: t₁, b :: t₂, hp, hs₁, hs₂, hnd => by
    have hab : a = b := by
      rcases List.mem_cons.mp (hp.subset (List.mem_cons_self a t₁)) with h | h
      · exact h
      rcases List.mem_cons.mp (hp.symm.subset (List.mem_cons_self b t₂)) with h' | h'
      · exact h'.symm
      exfalso
      have hk : a.1 = b.1 :=
        strLe_antisymm (List.rel_of_sorted_cons hs₁ b h') (List.rel_of_sorted_cons hs₂ a h)
      have hmem : a.1 ∈ t₁.map Prod.fst := by
        rw [hk]; exact List.mem_map_of_mem Prod.fst h'
      exact (List.nodup_cons.mp (by simpa using hnd)).1 hmem
    subst hab
    have ht : t₁ = t₂ :=
      sorted_keys_nodup_perm_eq t₁ t₂ hp.cons_inv
        (List.sorted_cons.mp hs₁).2 (List.sorted_cons.mp hs₂).2
        (List.nodup_cons.mp (by simpa using hnd)).2
    rw [ht]

/-- Sorting is insensitive to the supply order of a duplicate-key-free
association list. -/
theorem sortKwargs_eq_of_perm {kw₁ kw₂ : List (String × PyVal)}
    (hp : List.Perm kw₁ kw₂) (hnd : (kw₁.map Prod.fst).Nodup) :
    sortKwargs kw₁ = sortKwargs kw₂ :=
  sorted_keys_nodup_perm_eq _ _
    ((sortKwargs_perm kw₁).trans (hp.trans (sortKwargs_perm kw₂).symm))
    (sortKwargs_sorted kw₁) (sortKwargs_sorted kw₂)
    (((sortKwargs_perm kw₁).map Prod.fst).symm.nodup hnd)

/-- Dict assignment followed by lookup of the same key yields the assigned
value. -/
theorem lookupKey_setKey : ∀ (kws : List (String × PyVal)) (k : String) (v : PyVal),
    lookupKey (setKey kws k v) k = some v
  | [], k, v => by simp [setKey, lookupKey, List.find?]
  | a :: t, k, v => by
    have ih := lookupKey_setKey t k v
    by_cases h1 : a.1 = k
    · simp [setKey, lookupKey, List.find?, List.any_cons, h1]
    · by_cases h2 : t.any (fun p => decide (p.1 = k)) = true
      · simp only [setKey, List.any_cons, h1, h2, List.map_cons, lookupKey, List.find?] at ih ⊢
        simpa [h1] using ih
      · simp only [setKey, List.any_cons, h1, h2, List.cons_append, lookupKey, List.find?] at ih ⊢
        simpa [h1] using ih

/-- Construction through `filter_` always succeeds: a single parent can never
trip the duplicate-parent assertion. -/
theorem filter_ok (parent : Node) (fname : String) (args : List PyVal)
    (kwargs : List (String × PyVal)) :
    filter_ parent fname args kwargs = .ok (.mk .filter [parent] fname args kwargs) := by
  simp only [filter_, mkFilterNode, mkNode]
  rw [if_pos]
  simp

/-- The fragment `_get_filter` emits always starts with the node's name. -/
theorem get_filter_starts_with_name (n : Node) : ∃ rest, get_filter n = n.name ++ rest := by
  simp only [get_filter]
  by_cases h : (n.args.map pyStr ++
      (sortKwargs n.kwargs).map (fun p => p.1 ++ "=" ++ pyStr p.2)).isEmpty = true
  · rw [if_pos h]
    exact ⟨"", (String.append_empty _).symm⟩
  · rw [if_neg h]
    exact ⟨_, String.append_assoc ..⟩

/-- C1, evidence of the divergence: the claim requires `identity(a) ==
identity(b)` to hold only when `a` and `b` have the same name; but
`_update_hash` digests only `args`, `kwargs` and the parent hashes, so the
validly constructed filter nodes `hflip(src)` and `vflip(src)` have equal
identity (and compare equal under `__eq__`) while their names differ. -/
theorem C1_identity_ignores_name :
    mkFilterNode [srcNode] "hflip" [] [] = .ok hflipNode ∧
    mkFilterNode [srcNode] "vflip" [] [] = .ok vflipNode ∧
    nodeEq hflipNode vflipNode = true ∧
    Node.name hflipNode ≠ Node.name vflipNode :=
  ⟨rfl, rfl, rfl, by decide⟩

/-- C2: constructing any node whose parent sequence has, at two distinct
positions, entries of equal structural identity fails with the
duplicate-parent assertion message and produces no node. -/
theorem C2_duplicate_parent_rejected (kind : NodeKind) (parents : List Node)
    (name : String) (args : List PyVal) (kwargs : List (String × PyVal))
    (i j : Nat) (hi : i < parents.length) (hj : j < parents.length) (hij : i ≠ j)
    (heq : nodeHash (parents.get ⟨i, hi⟩) = nodeHash (parents.get ⟨j, hj⟩)) :
    mkNode kind parents name args kwargs =
      .error "Same node cannot be included as parent multiple times" := by
  have hlen : (parents.map nodeHash).length = parents.length := List.length_map ..
  have hnd : ¬ (parents.map nodeHash).Nodup := by
    intro hnd
    apply hij
    have hinj := List.nodup_iff_injective_get.mp hnd
    have hkey : (parents.map nodeHash).get ⟨i, by omega⟩ =
        (parents.map nodeHash).get ⟨j, by omega⟩ := by
      rw [List.get_map, List.get_map]
      exact heq
    simpa using hinj hkey
  simp only [mkNode]
  rw [if_neg hnd]

/-- C2 witness: a parent list containing the same node at positions 0 and 1
is rejected. -/
theorem C2_witness :
    nodeHash (List.get [trimNode1, trimNode1] ⟨0, by decide⟩) =
      nodeHash (List.get [trimNode1, trimNode1] ⟨1, by decide⟩) ∧
    mkNode .filter [trimNode1, trimNode1] "concat" [] [] =
      .error "Same node cannot be included as parent multiple times" :=
  ⟨rfl, C2_duplicate_parent_rejected .filter [trimNode1, trimNode1] "concat" [] []
    0 1 (by decide) (by decide) (by decide) rfl⟩

/-- C3: the per-segment fragment is the filter name alone when there are no
parameters, and otherwise the name, `=`, and the `:`-joined parameters —
positional parameters first in declared order, then the named parameters as
`key=value` in ascending (lexicographic, by code point) key order. -/
theorem C3_filter_fragment (n : Node) :
    (get_filter n =
      if n.args = [] ∧ n.kwargs = [] then n.name
      else n.name ++ "=" ++ String.intercalate ":"
        (n.args.map pyStr ++ (sortKwargs n.kwargs).map (fun p => p.1 ++ "=" ++ pyStr p.2)))
    ∧ List.Perm (sortKwargs n.kwargs) n.kwargs
    ∧ ((sortKwargs n.kwargs).map Prod.fst).Sorted (fun a b => strLe a b = true) := by
  refine ⟨?_, sortKwargs_perm _, sortKwargs_sorted_keys _⟩
  by_cases h : n.args = [] ∧ n.kwargs = []
  · obtain ⟨h1, h2⟩ := h
    rw [if_pos ⟨h1, h2⟩]
    simp [get_filter, h1, h2, sortKwargs]
  · rw [if_neg h]
    have hne : n.args.map pyStr ++
        (sortKwargs n.kwargs).map (fun p => p.1 ++ "=" ++ pyStr p.2) ≠ [] := by
      rcases not_and_or.mp h with h' | h'
      · intro hcon
        exact h' (List.map_eq_nil_iff.mp (List.append_eq_nil.mp hcon).1)
      · intro hcon
        have hs : sortKwargs n.kwargs = [] :=
          List.map_eq_nil_iff.mp (List.append_eq_nil.mp hcon).2
        have hl := (sortKwargs_perm n.kwargs).length_eq
        rw [hs] at hl
        exact h' (List.length_eq_zero.mp hl.symm)
    simp only [get_filter]
    rw [if_neg (by simpa [List.isEmpty_iff] using hne)]

/-- C4, counterexample to the claimed arity error: `overlay` is a two-input
filter, yet `FilterNode` construction succeeds with one parent and with
three parents — no arity validation exists anywhere in the construction
path. -/
theorem C4_no_arity_error_counterexample :
    (∃ n, mkFilterNode [trimNode1] "overlay" [] [("eof_action", .str "repeat")] = .ok n) ∧
    (∃ n, mkFilterNode [trimNode1, trimNode2, trimNode3] "overlay" []
      [("eof_action", .str "repeat")] = .ok n) :=
  ⟨⟨_, rfl⟩, ⟨_, rfl⟩⟩

/-- C4 as amended: `FilterNode` construction performs no input-arity
validation at all — for any number of parents it succeeds whenever the
parents' structural identities are pairwise distinct (the duplicate-parent
assertion being the only construction-time check). -/
theorem C4_amended_no_arity_check (parents : List Node) (name : String)
    (args : List PyVal) (kwargs : List (String × PyVal))
    (hnd : (parents.map nodeHash).Nodup) :
    mkFilterNode parents name args kwargs = .ok (.mk .filter parents name args kwargs) := by
  simp only [mkFilterNode, mkNode]
  rw [if_pos hnd]

/-- C4 amended-claim witness: a one-parent `overlay` construction succeeds. -/
theorem C4_amended_witness :
    ([trimNode1].map nodeHash).Nodup ∧
    mkFilterNode [trimNode1] "overlay" [] [] = .ok (.mk .filter [trimNode1] "overlay" [] []) :=
  ⟨by decide, C4_amended_no_arity_check [trimNode1] "overlay" [] [] (by decide)⟩

/-- C5: constructing a global-option node succeeds exactly when the single
parent is an output (sink) node; for every other parent kind it fails with
the invalid-attachment assertion message. -/
theorem C5_global_requires_output_parent (parent : Node) (name : String)
    (args : List PyVal) (kwargs : List (String × PyVal)) :
    ((∃ n, mkGlobalNode parent name args kwargs = .ok n) ↔ parent.kind = NodeKind.output)
    ∧ (parent.kind = NodeKind.output ∨
        mkGlobalNode parent name args kwargs =
          .error "Global nodes can only be attached after output nodes") := by
  by_cases hk : parent.kind = NodeKind.output
  · refine ⟨⟨fun _ => hk, fun _ => ⟨.mk .globalOpt [parent] name args kwargs, ?_⟩⟩, .inl hk⟩
    simp only [mkGlobalNode, if_pos hk, mkNode]
    rw [if_pos]
    simp
  · refine ⟨⟨fun hex => ?_, fun h => absurd h hk⟩, .inr ?_⟩
    · obtain ⟨n, hn⟩ := hex
      rw [mkGlobalNode, if_neg hk] at hn
      cases hn
    · rw [mkGlobalNode, if_neg hk]

/-- C6: structural identity is insensitive to the supply order of the named
parameters — permuting a duplicate-key-free kwargs mapping leaves the hash
unchanged, because the serialization sorts the keys. -/
theorem C6_kwargs_supply_order_irrelevant (kind : NodeKind) (parents : List Node)
    (name : String) (args : List PyVal) (kw₁ kw₂ : List (String × PyVal))
    (hperm : List.Perm kw₁ kw₂) (hnd : (kw₁.map Prod.fst).Nodup) :
    nodeHash (.mk kind parents name args kw₁) = nodeHash (.mk kind parents name args kw₂) := by
  rw [nodeHash_mk, nodeHash_mk, propsStr, propsStr, kwargsJson, kwargsJson,
    sortKwargs_eq_of_perm hperm hnd]

/-- C6 witness: supplying `b=1, a=2` and `a=2, b=1` yields the same hash. -/
theorem C6_witness :
    List.Perm [("b", PyVal.int 1), ("a", PyVal.int 2)]
      [("a", PyVal.int 2), ("b", PyVal.int 1)] ∧
    ([("b", PyVal.int 1), ("a", PyVal.int 2)].map Prod.fst).Nodup ∧
    nodeHash (.mk .filter [srcNode] "scale" [] [("b", .int 1), ("a", .int 2)]) =
      nodeHash (.mk .filter [srcNode] "scale" [] [("a", .int 2), ("b", .int 1)]) :=
  ⟨by decide, by decide,
    C6_kwargs_supply_order_irrelevant .filter [srcNode] "scale" [] _ _ (by decide) (by decide)⟩

/-- C7: `__repr__` renders `name(arg1,...,key=value,...)` with the positional
parameters first in declared order and the named parameters (`repr`ed
values) in ascending key order. -/
theorem C7_display_format (n : Node) :
    Node.repr n = n.name ++ "(" ++ String.intercalate ","
      (n.args.map pyStr ++ (sortKwargs n.kwargs).map (fun p => p.1 ++ "=" ++ pyRepr p.2)) ++ ")"
    ∧ List.Perm (sortKwargs n.kwargs) n.kwargs
    ∧ ((sortKwargs n.kwargs).map Prod.fst).Sorted (fun a b => strLe a b = true) :=
  ⟨rfl, sortKwargs_perm _, sortKwargs_sorted_keys _⟩

/-- C8: nodes built by the same construction calls — same kinds, names,
parameters, and position-by-position same-built parents — are equal under
the structural identity, independently of construction order or object
distinctness (which have no bearing on the value model). -/
theorem C8_same_pipeline_equal_identity (a b : Node) (h : SameBuild a b) :
    nodeEq a b = true := by
  rw [nodeEq_iff]
  induction h with
  | mk kind ps₁ ps₂ name args kwargs hlen hps ih =>
    rw [nodeHash_mk, nodeHash_mk]
    congr 1
    apply List.ext_get (by simp [hlen])
    intro i h₁ h₂
    rw [List.get_map, List.get_map]
    exact ih i (by simpa using h₁) (by simpa using h₂)

/-- C8 witness: the example sink and its longhand from-scratch copy are
same-built and equal by identity. -/
theorem C8_witness :
    SameBuild outNode pipelineSinkB ∧ nodeEq outNode pipelineSinkB = true := by
  have h0 : SameBuild srcNode srcNode :=
    SameBuild.mk .input [] [] "file_input" [] [("filename", .str "dummy.mp4")] rfl
      (fun i h₁ _ => absurd h₁ (Nat.not_lt_zero i))
  have h1 : SameBuild trimNode1 trimNode1 :=
    SameBuild.mk .filter [srcNode] [srcNode] "trim" []
      [("start_frame", .int 10), ("end_frame", .int 20)] rfl
      (fun i h₁ h₂ => by
        match i, h₁, h₂ with
        | 0, _, _ => exact h0)
  have hS : SameBuild outNode pipelineSinkB :=
    SameBuild.mk .output [trimNode1]
      [.mk .filter [.mk .input [] "file_input" [] [("filename", .str "dummy.mp4")]]
        "trim" [] [("start_frame", .int 10), ("end_frame", .int 20)]]
      "file_output" [] [("filename", .str "dummy2.mp4")] rfl
      (fun i h₁ h₂ => by
        match i, h₁, h₂ with
        | 0, _, _ => exact h1)
  exact ⟨hS, C8_same_pipeline_equal_identity _ _ hS⟩

/-- C9: `concat` over any parent list (any length, zero included) whose
identities are pairwise distinct returns a filter node with exactly those
parents in order, named `concat`, whose kwarg `n` is the parent count —
overwriting any caller-supplied `n`. -/
theorem C9_concat_sets_n (parents : List Node) (kwargs : List (String × PyVal))
    (hnd : (parents.map nodeHash).Nodup) :
    ∃ n, concat parents kwargs = .ok n ∧ n.parents = parents ∧ n.name = "concat" ∧
      n.kind = NodeKind.filter ∧ n.args = [] ∧
      lookupKey n.kwargs "n" = some (.int parents.length) := by
  refine ⟨.mk .filter parents "concat" [] (setKey kwargs "n" (.int parents.length)),
    ?_, rfl, rfl, rfl, rfl, lookupKey_setKey kwargs "n" _⟩
  simp only [concat, filter_multi, mkFilterNode, mkNode]
  rw [if_pos hnd]

/-- C9 witness: two parents and a caller-supplied `n=5`; the result carries
the two parents in order and `n=2`. -/
theorem C9_witness :
    ([trimNode1, trimNode2].map nodeHash).Nodup ∧
    ∃ n, concat [trimNode1, trimNode2] [("n", PyVal.int 5), ("unsafe", PyVal.int 1)] = .ok n ∧
      n.parents = [trimNode1, trimNode2] ∧ n.name = "concat" ∧
      n.kind = NodeKind.filter ∧ n.args = [] ∧
      lookupKey n.kwargs "n" = some (.int 2) :=
  ⟨by decide,
    C9_concat_sets_n [trimNode1, trimNode2] [("n", .int 5), ("unsafe", .int 1)] (by decide)⟩

/-- C10: the `drawtext` wrapper hands `drawbox.__name__` to the generic
filter constructor, so the node it returns is named `drawbox` and its
compiled segment starts with `drawbox`. -/
theorem C10_drawtext_builds_drawbox (parent : Node) (text : Option String)
    (x y : PyVal) (escapeText : Bool) (kwargs : List (String × PyVal)) :
    ∃ n, drawtext parent text x y escapeText kwargs = .ok n ∧
      n.name = "drawbox" ∧ ∃ rest, get_filter n = "drawbox" ++ rest := by
  refine ⟨_, filter_ok parent "drawbox" [] _, rfl, ?_⟩
  exact get_filter_starts_with_name _

end FfmpegSpec
